import Mathlib

/-!
Verification development for the hierarchical process state store implemented
in `packages/robo/src/core/state.ts`.

Embedding choices:
* JavaScript runtime values that can flow through the store are modelled by
  the inductive type `Value`: primitives, functions carrying their `name`
  property, arrays, plain objects, null-prototype objects
  (`Object.create(null)`), and class instances carrying their class's name.
  Objects carry their own enumerable string-keyed properties, whose values may
  be `undefined`.  The expression `value.constructor` is computed as in JS —
  the own `constructor` property when present (it shadows the prototype),
  else the prototype's constructor function, and nothing for a null-prototype
  object — and the `.name` access on it either yields the function's name (or
  an own `name` property, or `undefined`) or throws the TypeError the source
  hits when the constructor is `undefined` or `null`.  Values are finite
  trees: cyclic runtime values, on which the source's recursion would not
  terminate, are outside the model, so termination statements are about the
  modelled domain.
* `undefined` is modelled as `none` in `JSVal := Option Value`; JS `null` is
  the distinct value `some Value.vNull`.
* A JS record (the module-level `state` object, and the persisted snapshot
  stored in Flashcore) is modelled as an association list in which a newly
  assigned key shadows older bindings; observations go through `List.lookup`.
* Module-level mutable state (the `state` record and the Flashcore slot at
  `FLASHCORE_KEYS.state`) is passed explicitly as a `Sys` record, and the
  static registry `State._prefixes` is passed explicitly as a `Registry`.
* The asynchronous persistence branch of `setState` runs to completion in the
  model; the returned `Bool` records whether the branch was triggered.
* `logger.warn` calls made by `removeInstances` are counted in `WarnState`
  alongside the `warned` flag object that the source threads through the
  recursion; a thrown TypeError aborts the pass as `Except.error`, paired
  with the warning state reached when the throw happened.
* `getStateSave`'s promise is modelled by scanning the stream of channel
  events (`message` / `error`) that follow the call: the first `error` event
  rejects, the first message accepted by `isStateMessage` resolves, and a
  promise that never settles is the `pending` outcome.  Listener removal
  (`botProcess.off`) is reflected by the scan stopping at the first terminal
  event.

The TypeScript field `_prefix` is rendered as `pfx` and `_options` as `opts`.
-/

/-- A JavaScript runtime value, as far as the state store can observe it.
`vFunc` carries the function's `name` property; `vObj` is a plain object
(`Object.prototype` behind it), `vObjNP` a null-prototype object as produced
by `Object.create(null)`, and `vInst` a class instance with the class's name;
each carries its own enumerable fields, whose values may be `undefined`. -/
inductive Value where
  | vNull
  | vStr (s : String)
  | vNum (n : Int)
  | vBool (b : Bool)
  | vFunc (name : String)
  | vArr (items : List (Option Value))
  | vObj (fields : List (String × Option Value))
  | vObjNP (fields : List (String × Option Value))
  | vInst (name : String) (fields : List (String × Option Value))

/-- `undefined` is `none`; JS `null` is `some Value.vNull`. -/
abbrev JSVal := Option Value

/-- A JS record: association list, later assignments shadow earlier ones. -/
abbrev Table := List (String × JSVal)

/-- Reading `obj[k]`: `undefined` when the key is absent. -/
def tGet (t : Table) (k : String) : JSVal :=
  match t.lookup k with
  | some v => v
  | none => none

/-- Writing `obj[k] = v`. -/
def tSet (t : Table) (k : String) (v : JSVal) : Table :=
  (k, v) :: t

/-- `const builtInTypes = ['String', 'Number', 'Boolean', 'Array', 'Object']` -/
def builtInTypes : List String := ["String", "Number", "Boolean", "Array", "Object"]

/-- The `warned` flag object threaded through `removeInstances`, together with
a count of the `logger.warn` calls observed so far. -/
structure WarnState where
  warned : Bool
  warnCount : Nat

/-- A JavaScript exception observable from the sanitizer. -/
inductive JSError where
  | typeError

/-- The `.name` property of a value when it is used as a constructor:
functions yield their name, objects yield their own `name` property (possibly
`undefined`), everything else yields `undefined`. -/
def nameOf : Value → JSVal
  | .vFunc fname => some (.vStr fname)
  | .vObj fields =>
      match fields.lookup "name" with
      | some v => v
      | none => none
  | .vObjNP fields =>
      match fields.lookup "name" with
      | some v => v
      | none => none
  | .vInst _ fields =>
      match fields.lookup "name" with
      | some v => v
      | none => none
  | _ => none

/-- `value.constructor` for an object value: the own `constructor` property
when present (shadowing the prototype), else the constructor function
inherited from the prototype — `Array` for arrays, `Object` for plain
objects, the class function for instances — and `undefined` for a
null-prototype object, which inherits nothing. -/
def ctorOf : Value → JSVal
  | .vArr _ => some (.vFunc "Array")
  | .vObj fields =>
      match fields.lookup "constructor" with
      | some v => v
      | none => some (.vFunc "Object")
  | .vObjNP fields =>
      match fields.lookup "constructor" with
      | some v => v
      | none => none
  | .vInst n fields =>
      match fields.lookup "constructor" with
      | some v => v
      | none => some (.vFunc n)
  | _ => none

/-- `value.constructor.name` as evaluated at `state.ts` line 91: throws a
TypeError when the constructor is `undefined` or `null`, otherwise reads the
`.name` property. -/
def ctorName (v : Value) : Except JSError JSVal :=
  match ctorOf v with
  | none => .error .typeError
  | some .vNull => .error .typeError
  | some c => .ok (nameOf c)

/-- `builtInTypes.includes(x)` for the computed constructor name: true only
for the five built-in type name strings. -/
def isBuiltIn : JSVal → Bool
  | some (.vStr s) => builtInTypes.contains s
  | _ => false

mutual
/-- `removeInstances(value, warned)` from `state.ts`, on a possibly-undefined
argument: `undefined` is neither a function nor an object and passes through.
The pair's first component is the returned value or the thrown TypeError; the
second is the warning state reached. -/
def removeInstances : Option Value → WarnState → Except JSError (Option Value) × WarnState
  | none, s => (.ok none, s)
  | some v, s => removeValue v s

/-- The body of `removeInstances` on a defined value: functions sanitize to
`undefined`; for objects, `value.constructor.name` is computed first — which
may throw — and when its result is not a built-in type name the object
degrades to `undefined` with at most one warning; otherwise an array is
mapped and filtered and any other object is rebuilt field by field (the
`for..in` loop) into a fresh plain object, dropping fields that sanitize to
`undefined`.  A throw inside the recursion aborts the whole pass. -/
def removeValue : Value → WarnState → Except JSError (Option Value) × WarnState
  | .vFunc _, s => (.ok none, s)
  | .vNull, s => (.ok (some .vNull), s)
  | .vStr x, s => (.ok (some (.vStr x)), s)
  | .vNum x, s => (.ok (some (.vNum x)), s)
  | .vBool x, s => (.ok (some (.vBool x)), s)
  | .vArr items, s =>
      match ctorName (.vArr items) with
      | .error e => (.error e, s)
      | .ok cn =>
          if isBuiltIn cn then
            match removeList items s with
            | (.error e, s2) => (.error e, s2)
            | (.ok items2, s2) => (.ok (some (.vArr items2)), s2)
          else if s.warned then (.ok none, s)
          else (.ok none, ⟨true, s.warnCount + 1⟩)
  | .vObj fields, s =>
      match ctorName (.vObj fields) with
      | .error e => (.error e, s)
      | .ok cn =>
          if isBuiltIn cn then
            match removeFields fields s with
            | (.error e, s2) => (.error e, s2)
            | (.ok fields2, s2) => (.ok (some (.vObj fields2)), s2)
          else if s.warned then (.ok none, s)
          else (.ok none, ⟨true, s.warnCount + 1⟩)
  | .vObjNP fields, s =>
      match ctorName (.vObjNP fields) with
      | .error e => (.error e, s)
      | .ok cn =>
          if isBuiltIn cn then
            match removeFields fields s with
            | (.error e, s2) => (.error e, s2)
            | (.ok fields2, s2) => (.ok (some (.vObj fields2)), s2)
          else if s.warned then (.ok none, s)
          else (.ok none, ⟨true, s.warnCount + 1⟩)
  | .vInst n fields, s =>
      match ctorName (.vInst n fields) with
      | .error e => (.error e, s)
      | .ok cn =>
          if isBuiltIn cn then
            match removeFields fields s with
            | (.error e, s2) => (.error e, s2)
            | (.ok fields2, s2) => (.ok (some (.vObj fields2)), s2)
          else if s.warned then (.ok none, s)
          else (.ok none, ⟨true, s.warnCount + 1⟩)

/-- `value.map((item) => removeInstances(item, warned)).filter((item) => item !== undefined)`,
aborting when an element's sanitization throws. -/
def removeList : List (Option Value) → WarnState → Except JSError (List (Option Value)) × WarnState
  | [], s => (.ok [], s)
  | v :: vs, s =>
      match removeInstances v s with
      | (.error e, s2) => (.error e, s2)
      | (.ok r, s2) =>
          match removeList vs s2 with
          | (.error e, s3) => (.error e, s3)
          | (.ok rest, s3) =>
              match r with
              | none => (.ok rest, s3)
              | some v2 => (.ok (some v2 :: rest), s3)

/-- The `for (const key in value)` loop building `result`, aborting when a
field's sanitization throws. -/
def removeFields : List (String × Option Value) → WarnState → Except JSError (List (String × Option Value)) × WarnState
  | [], s => (.ok [], s)
  | (k, v) :: fs, s =>
      match removeInstances v s with
      | (.error e, s2) => (.error e, s2)
      | (.ok r, s2) =>
          match removeFields fs s2 with
          | (.error e, s3) => (.error e, s3)
          | (.ok rest, s3) =>
              match r with
              | none => (.ok rest, s3)
              | some v2 => (.ok ((k, some v2) :: rest), s3)
end

/-- `SetStateOptions` from `state.ts` (`persist?: boolean`). -/
structure SetStateOptions where
  persist : Option Bool

/-- `StateOptions` from `state.ts` (`persist?: boolean`). -/
structure StateOptions where
  persist : Option Bool

/-- The module-level mutable world: the in-memory `state` record and the
Flashcore slot holding the persisted snapshot (`none` when nothing was ever
persisted). -/
structure Sys where
  table : Table
  flash : Option Table

/-- `getState(key)` from `state.ts`: reads the module-level record. -/
def getState (sys : Sys) (key : String) : JSVal :=
  tGet sys.table key

/-- `clearState()` from `state.ts`: deletes every key of the in-memory record,
leaving the durable backend alone. -/
def clearState (sys : Sys) : Sys :=
  ⟨[], sys.flash⟩

/-- `setState(key, value, options)` from `state.ts`.  Always writes the
in-memory record; when the destructured `persist` option is `true` it runs the
asynchronous read-modify-write against Flashcore.  The returned `Bool` reports
whether that persistence branch was triggered. -/
def setState (sys : Sys) (key : String) (value : JSVal) (options : Option SetStateOptions) : Sys × Bool :=
  let persist := (options.getD ⟨none⟩).persist
  let table2 := tSet sys.table key value
  if persist = some true then
    let persisted := sys.flash.getD []
    (⟨table2, some (tSet persisted key value)⟩, true)
  else
    (⟨table2, sys.flash⟩, false)

/-- `RoboMessage`: tagged message with an optional state payload. -/
structure RoboMessage where
  type : String
  state : Option Table

/-- `saveState()` from `state.ts`: sends the raw in-memory record to the
parent process. -/
def saveState (sys : Sys) : RoboMessage :=
  ⟨"state-save", some sys.table⟩

/-- `isStateMessage(message)` from `state.ts`. -/
def isStateMessage (m : RoboMessage) : Bool :=
  m.type == "state-load" || m.type == "state-save"

/-- The `State` class: a prefix (source field `_prefix`) and the options given
at construction (source field `_options`). -/
structure State where
  pfx : String
  opts : Option StateOptions

/-- `State._prefixes`, an insertion-ordered set of strings. -/
abbrev Registry := List String

/-- `Set.prototype.add` on `State._prefixes`. -/
def regAdd (reg : Registry) (p : String) : Registry :=
  if p ∈ reg then reg else reg ++ [p]

/-- Static `State.fork(prefix, options)`: registers the prefix and returns a
root-level fork. -/
def State.forkStatic (reg : Registry) (p : String) (o : Option StateOptions) : Registry × State :=
  (regAdd reg p, ⟨p, o⟩)

/-- `State.listForks()`: the registered prefixes in insertion order. -/
def listForks (reg : Registry) : List String :=
  reg

/-- Instance `fork(prefix, options)`: `new State(` + backtick-template
composing the prefixes + `, options)`. -/
def State.fork (s : State) (p : String) (o : Option StateOptions) : State :=
  ⟨s.pfx ++ "__" ++ p, o⟩

/-- Instance `fork` observed against the registry: the method body contains no
`State._prefixes.add` call, so the registry passes through unchanged. -/
def State.forkR (reg : Registry) (s : State) (p : String) (o : Option StateOptions) : Registry × State :=
  (reg, s.fork p o)

/-- Alias for the module-level `getState`, visible inside the `State`
namespace where the method of the same name shadows it. -/
def getStateTop : Sys → String → JSVal := getState

/-- Alias for the module-level `setState`, visible inside the `State`
namespace where the method of the same name shadows it. -/
def setStateTop : Sys → String → JSVal → Option SetStateOptions → Sys × Bool := setState

/-- Instance `getState(key)`: delegates with the namespaced key. -/
def State.getState (sys : Sys) (s : State) (key : String) : JSVal :=
  getStateTop sys (s.pfx ++ "__" ++ key)

/-- Instance `setState(key, value, options)`: delegates with the namespaced
key, spreading the given options and overriding `persist` with
`options?.persist ?? this._options?.persist`. -/
def State.setState (sys : Sys) (s : State) (key : String) (value : JSVal) (options : Option SetStateOptions) : Sys × Bool :=
  setStateTop sys (s.pfx ++ "__" ++ key) value
    (some ⟨Option.orElse (options.bind fun o => o.persist) (fun _ => s.opts.bind fun o => o.persist)⟩)

/-- A channel event observed on the worker process handle after
`getStateSave` subscribes. -/
inductive ChildEvent where
  | message (m : RoboMessage)
  | fault (e : String)

/-- Outcome of the promise returned by `getStateSave`. -/
inductive SaveOutcome where
  | resolved (state : Option Table)
  | rejected (e : String)
  | pending

/-- The listener pair of `getStateSave`: the first fault rejects (the message
listener having been removed first), the first message passing
`isStateMessage` resolves with its payload, other messages are ignored, and
with no terminal event the promise stays pending. -/
def runSave : List ChildEvent → SaveOutcome
  | [] => .pending
  | .message m :: rest => if isStateMessage m then .resolved m.state else runSave rest
  | .fault e :: _ => .rejected e

/-- `getStateSave(botProcess)`: a null handle resolves immediately with the
empty record, otherwise the outcome is decided by the event stream. -/
def getStateSave (worker : Option (List ChildEvent)) : SaveOutcome :=
  match worker with
  | none => .resolved (some [])
  | some events => runSave events

/-- Prefix composition as performed by the instance `fork`. -/
def composeP (a b : String) : String :=
  a ++ "__" ++ b

/-- A chain of instance `fork` calls with the given local prefixes. -/
def forkChain (s : State) (ls : List String) : State :=
  ls.foldl (fun acc p => acc.fork p none) s

/-- A string free of the separator character `_`. -/
def noUS (s : String) : Prop :=
  '_' ∉ s.data

instance (s : String) : Decidable (noUS s) :=
  inferInstanceAs (Decidable ('_' ∉ s.data))

/-- Modelled from the claim of C6: the effective persist flag is the explicit
call-site value when given, else the fork's own default, else `false`. -/
def effPersist (callO : Option SetStateOptions) (defO : Option StateOptions) : Bool :=
  match callO.bind fun o => o.persist with
  | some b => b
  | none =>
      match defO.bind fun o => o.persist with
      | some b => b
      | none => false

/-! ## Basic lemmas about the embedded record operations -/

lemma strOfData (a b : String) (h : a.data = b.data) : a = b :=
  congrArg String.mk h

lemma tGet_tSet_self (t : Table) (k : String) (v : JSVal) : tGet (tSet t k v) k = v := by
  simp [tGet, tSet, List.lookup]

lemma tGet_tSet_ne (t : Table) (k1 k2 : String) (v : JSVal) (h : k2 ≠ k1) :
    tGet (tSet t k1 v) k2 = tGet t k2 := by
  have hb : (k2 == k1) = false := beq_eq_false_iff_ne.mpr h
  simp [tGet, tSet, List.lookup, hb]

lemma lookup_tSet_self (t : Table) (k : String) (v : JSVal) :
    (tSet t k v).lookup k = some v := by
  simp [tSet, List.lookup]

lemma lookup_tSet_ne (t : Table) (k1 k2 : String) (v : JSVal) (h : k2 ≠ k1) :
    (tSet t k1 v).lookup k2 = t.lookup k2 := by
  have hb : (k2 == k1) = false := beq_eq_false_iff_ne.mpr h
  simp [tSet, List.lookup, hb]

lemma setState_table (sys : Sys) (k : String) (v : JSVal) (o : Option SetStateOptions) :
    ((setState sys k v o).1).table = tSet sys.table k v := by
  simp only [setState]
  split
  · rfl
  · rfl

lemma append_cancel_ne (p1 p2 t : String) (h : p1 ≠ p2) : p1 ++ t ≠ p2 ++ t := by
  intro he
  apply h
  apply strOfData
  have hd : (p1 ++ t).data = (p2 ++ t).data := congrArg String.data he
  rw [String.data_append, String.data_append] at hd
  exact List.append_cancel_right hd

/-! ## The warning discipline of the sanitizer -/

/-- How one sanitization pass may change the warning state: either not at all,
or by switching an unset `warned` flag on while logging exactly one warning. -/
def WarnStep (s t : WarnState) : Prop :=
  t = s ∨ (s.warned = false ∧ t = ⟨true, s.warnCount + 1⟩)

lemma warnStep_rfl (s : WarnState) : WarnStep s s := Or.inl rfl

lemma warnStep_trans {s t u : WarnState} (h1 : WarnStep s t) (h2 : WarnStep t u) :
    WarnStep s u := by
  rcases h1 with h1 | ⟨hw1, h1⟩
  · subst h1
    exact h2
  · rcases h2 with h2 | ⟨hw2, h2⟩
    · subst h2
      exact Or.inr ⟨hw1, h1⟩
    · subst h1
      simp at hw2

lemma sanitize_warnStep :
    ∀ (v : Option Value) (s : WarnState), WarnStep s (removeInstances v s).2 := by
  refine removeInstances.induct
    (fun v s => WarnStep s (removeInstances v s).2)
    (fun v s => WarnStep s (removeValue v s).2)
    (fun fs s => WarnStep s (removeFields fs s).2)
    (fun vs s => WarnStep s (removeList vs s).2)
    ?_ ?_ ?_ ?_ ?_ ?_ ?_ ?_ ?_ ?_ ?_ ?_ ?_ ?_ ?_ ?_ ?_ ?_ ?_ ?_ ?_ ?_ ?_ ?_ ?_
    ?_ ?_ ?_ ?_ ?_ ?_ ?_ ?_ ?_ ?_ ?_ ?_
  · intro fname s
    simpa [removeValue] using warnStep_rfl s
  · intro s
    simpa [removeValue] using warnStep_rfl s
  · intro x s
    simpa [removeValue] using warnStep_rfl s
  · intro x s
    simpa [removeValue] using warnStep_rfl s
  · intro x s
    simpa [removeValue] using warnStep_rfl s
  · intro items s e hce
    simp only [removeValue, hce]
    exact warnStep_rfl s
  · intro items s cn hcn hb e s2 hrl ih
    rw [hrl] at ih
    simp [removeValue, hcn, hb, hrl]
    exact ih
  · intro items s cn hcn hb items2 s2 hrl ih
    rw [hrl] at ih
    simp [removeValue, hcn, hb, hrl]
    exact ih
  · intro items s cn hcn hb hw
    simp only [removeValue, hcn]
    rw [if_neg hb, if_pos hw]
    exact warnStep_rfl s
  · intro items s cn hcn hb hw
    simp only [removeValue, hcn]
    rw [if_neg hb, if_neg hw]
    exact Or.inr ⟨by simpa using hw, rfl⟩
  · intro fields s e hce
    simp only [removeValue, hce]
    exact warnStep_rfl s
  · intro fields s cn hcn hb e s2 hrf ih
    rw [hrf] at ih
    simp [removeValue, hcn, hb, hrf]
    exact ih
  · intro fields s cn hcn hb fields2 s2 hrf ih
    rw [hrf] at ih
    simp [removeValue, hcn, hb, hrf]
    exact ih
  · intro fields s cn hcn hb hw
    simp only [removeValue, hcn]
    rw [if_neg hb, if_pos hw]
    exact warnStep_rfl s
  · intro fields s cn hcn hb hw
    simp only [removeValue, hcn]
    rw [if_neg hb, if_neg hw]
    exact Or.inr ⟨by simpa using hw, rfl⟩
  · intro fields s e hce
    simp only [removeValue, hce]
    exact warnStep_rfl s
  · intro fields s cn hcn hb e s2 hrf ih
    rw [hrf] at ih
    simp [removeValue, hcn, hb, hrf]
    exact ih
  · intro fields s cn hcn hb fields2 s2 hrf ih
    rw [hrf] at ih
    simp [removeValue, hcn, hb, hrf]
    exact ih
  · intro fields s cn hcn hb hw
    simp only [removeValue, hcn]
    rw [if_neg hb, if_pos hw]
    exact warnStep_rfl s
  · intro fields s cn hcn hb hw
    simp only [removeValue, hcn]
    rw [if_neg hb, if_neg hw]
    exact Or.inr ⟨by simpa using hw, rfl⟩
  · intro n fields s e hce
    simp only [removeValue, hce]
    exact warnStep_rfl s
  · intro n fields s cn hcn hb e s2 hrf ih
    rw [hrf] at ih
    simp [removeValue, hcn, hb, hrf]
    exact ih
  · intro n fields s cn hcn hb fields2 s2 hrf ih
    rw [hrf] at ih
    simp [removeValue, hcn, hb, hrf]
    exact ih
  · intro n fields s cn hcn hb hw
    simp only [removeValue, hcn]
    rw [if_neg hb, if_pos hw]
    exact warnStep_rfl s
  · intro n fields s cn hcn hb hw
    simp only [removeValue, hcn]
    rw [if_neg hb, if_neg hw]
    exact Or.inr ⟨by simpa using hw, rfl⟩
  · intro s
    simpa [removeList] using warnStep_rfl s
  · intro v vs s e s2 hri ih
    rw [hri] at ih
    simp only [removeList, hri]
    exact ih
  · intro v vs s r s2 hri e s3 hrl ih1 ih2
    rw [hri] at ih1
    rw [hrl] at ih2
    simp only [removeList, hri, hrl]
    exact warnStep_trans ih1 ih2
  · intro v vs s s2 items2 s3 hrl hri ih1 ih2
    rw [hri] at ih1
    rw [hrl] at ih2
    simp only [removeList, hri, hrl]
    exact warnStep_trans ih1 ih2
  · intro v vs s s2 items2 s3 hrl v2 hri ih1 ih2
    rw [hri] at ih1
    rw [hrl] at ih2
    simp only [removeList, hri, hrl]
    exact warnStep_trans ih1 ih2
  · intro s
    simpa [removeFields] using warnStep_rfl s
  · intro k v fs s e s2 hri ih
    rw [hri] at ih
    simp only [removeFields, hri]
    exact ih
  · intro k v fs s r s2 hri e s3 hrf ih1 ih2
    rw [hri] at ih1
    rw [hrf] at ih2
    simp only [removeFields, hri, hrf]
    exact warnStep_trans ih1 ih2
  · intro k v fs s s2 fields2 s3 hrf hri ih1 ih2
    rw [hri] at ih1
    rw [hrf] at ih2
    simp only [removeFields, hri, hrf]
    exact warnStep_trans ih1 ih2
  · intro k v fs s s2 fields2 s3 hrf v2 hri ih1 ih2
    rw [hri] at ih1
    rw [hrf] at ih2
    simp only [removeFields, hri, hrf]
    exact warnStep_trans ih1 ih2
  · intro s
    simpa [removeInstances] using warnStep_rfl s
  · intro v s ih
    simpa [removeInstances] using ih

/-! ## Separator arithmetic for composed fork prefixes -/

/-- The character list obtained by joining components with the two-character
separator. -/
def joinT : List Char → List (List Char) → List Char
  | a, [] => a
  | a, b :: ts => a ++ '_' :: '_' :: joinT b ts

lemma joinT_append (x y : List Char) (ts : List (List Char)) :
    joinT (x ++ y) ts = x ++ joinT y ts := by
  cases ts with
  | nil => rfl
  | cons b ts => simp [joinT]

lemma joinT_snoc (a kd : List Char) (ts : List (List Char)) :
    joinT a (ts ++ [kd]) = joinT a ts ++ '_' :: '_' :: kd := by
  induction ts generalizing a with
  | nil => rfl
  | cons b ts ih => simp [joinT, ih]

lemma forkChain_pfx_data (ls : List String) (s : State) :
    (forkChain s ls).pfx.data = joinT s.pfx.data (ls.map String.data) := by
  induction ls generalizing s with
  | nil => rfl
  | cons p ls ih =>
      have hstep : (forkChain s (p :: ls)) = forkChain (s.fork p none) ls := rfl
      rw [hstep, ih]
      have hdata : (s.fork p none).pfx.data = s.pfx.data ++ '_' :: '_' :: p.data := by
        simp [State.fork, String.data_append]
      rw [hdata, joinT_append]
      simp only [List.map_cons, joinT]
      exact congrArg (fun l => s.pfx.data ++ l)
        (joinT_append ['_', '_'] p.data (ls.map String.data))

/-- A list that is empty or starts with the separator character. -/
def sepStart (l : List Char) : Prop :=
  l = [] ∨ ∃ r, l = '_' :: r

lemma splitFirstComponent :
    ∀ (a : List Char) (b s t : List Char), '_' ∉ a → '_' ∉ b →
      sepStart s → sepStart t → a ++ s = b ++ t → a = b ∧ s = t := by
  intro a
  induction a with
  | nil =>
      intro b s t _ hb hs _ h
      cases b with
      | nil => exact ⟨rfl, h⟩
      | cons c b2 =>
          exfalso
          rcases hs with hs | ⟨r, hr⟩
          · subst hs
            simp at h
          · rw [hr] at h
            simp at h
            apply hb
            rw [← h.1]
            exact List.mem_cons_self _ _
  | cons c a2 ih =>
      intro b s t ha hb hs ht h
      cases b with
      | nil =>
          exfalso
          rcases ht with ht | ⟨r, hr⟩
          · subst ht
            simp at h
          · rw [hr] at h
            simp at h
            apply ha
            rw [← h.1]
            exact List.mem_cons_self _ _
      | cons d b2 =>
          simp at h
          obtain ⟨hcd, h2⟩ := h
          have ha2 : '_' ∉ a2 := fun hm => ha (List.mem_cons_of_mem _ hm)
          have hb2 : '_' ∉ b2 := fun hm => hb (List.mem_cons_of_mem _ hm)
          obtain ⟨hab, hst⟩ := ih b2 s t ha2 hb2 hs ht h2
          exact ⟨by rw [hcd, hab], hst⟩

lemma joinT_inj :
    ∀ (ts1 : List (List Char)) (a1 a2 : List Char) (ts2 : List (List Char)),
      '_' ∉ a1 → '_' ∉ a2 →
      (∀ p ∈ ts1, '_' ∉ p) → (∀ p ∈ ts2, '_' ∉ p) →
      joinT a1 ts1 = joinT a2 ts2 → a1 = a2 ∧ ts1 = ts2 := by
  intro ts1
  induction ts1 with
  | nil =>
      intro a1 a2 ts2 h1 h2 _ ht2 h
      cases ts2 with
      | nil => exact ⟨h, rfl⟩
      | cons b2 ts2 =>
          exfalso
          apply h1
          rw [show joinT a1 [] = a1 from rfl] at h
          rw [h]
          simp [joinT]
  | cons b1 ts1 ih =>
      intro a1 a2 ts2 h1 h2 ht1 ht2 h
      cases ts2 with
      | nil =>
          exfalso
          apply h2
          rw [show joinT a2 [] = a2 from rfl] at h
          rw [← h]
          simp [joinT]
      | cons b2 ts2 =>
          simp only [joinT] at h
          obtain ⟨hab, hrest⟩ :=
            splitFirstComponent a1 a2 ('_' :: '_' :: joinT b1 ts1)
              ('_' :: '_' :: joinT b2 ts2) h1 h2 (Or.inr ⟨_, rfl⟩) (Or.inr ⟨_, rfl⟩) h
          simp only [List.cons.injEq, true_and] at hrest
          have hb1 : '_' ∉ b1 := ht1 b1 (List.mem_cons_self _ _)
          have hb2 : '_' ∉ b2 := ht2 b2 (List.mem_cons_self _ _)
          have ht1a : ∀ p ∈ ts1, '_' ∉ p := fun p hp => ht1 p (List.mem_cons_of_mem _ hp)
          have ht2a : ∀ p ∈ ts2, '_' ∉ p := fun p hp => ht2 p (List.mem_cons_of_mem _ hp)
          obtain ⟨hb, hts⟩ := ih b1 b2 ts2 hb1 hb2 ht1a ht2a hrest
          exact ⟨hab, by rw [hb, hts]⟩

/-! ## Claim theorems -/

/-- C1 counterexample: with persist requested, a function value — which the
Sanitizer maps to `undefined` — is written verbatim into the durable
snapshot, and `saveState` hands the channel a table still containing that
function verbatim: the Sanitizer is not applied on either path. -/
theorem c1_not_sanitized_cex :
    ((setState ⟨[], none⟩ "k" (some (Value.vFunc "f")) (some ⟨some true⟩)).1).flash
      = some [("k", some (Value.vFunc "f"))] ∧
    (removeInstances (some (Value.vFunc "f")) ⟨false, 0⟩).1 = Except.ok none ∧
    (saveState ⟨[("k", some (Value.vFunc "f"))], none⟩).state
      = some [("k", some (Value.vFunc "f"))] ∧
    (some (Value.vFunc "f") : JSVal) ≠ none := by
  refine ⟨rfl, rfl, rfl, by simp⟩

/-- C1 (amended): on a persistent set the value mirrored into the durable
snapshot is the raw value as given, and `saveState` sends the raw in-memory
table; neither path passes through the Sanitizer. -/
theorem c1_persist_raw :
    (∀ (sys : Sys) (k : String) (v : JSVal) (o : Option SetStateOptions),
      (o.getD ⟨none⟩).persist = some true →
      ((setState sys k v o).1).flash = some (tSet (sys.flash.getD []) k v)) ∧
    (∀ sys : Sys, saveState sys = ⟨"state-save", some sys.table⟩) := by
  constructor
  · intro sys k v o hp
    simp [setState, hp]
  · intro sys
    rfl

/-- Witness for `c1_persist_raw` at a concrete persistent write. -/
theorem c1_persist_raw_witness :
    ((some ⟨some true⟩ : Option SetStateOptions).getD ⟨none⟩).persist = some true ∧
    ((setState ⟨[], none⟩ "k" none (some ⟨some true⟩)).1).flash
      = some (tSet ((none : Option Table).getD []) "k" none) :=
  ⟨rfl, c1_persist_raw.1 ⟨[], none⟩ "k" none (some ⟨some true⟩) rfl⟩

/-- C2 counterexample: the chain that forks once with local prefix b from
root a, and the chain that is just the root a__b, are distinct prefix paths
yet compose to the same prefix string, and the fully-qualified keys they
produce for the same local key coincide. -/
theorem c2_distinct_paths_cex :
    (forkChain ⟨"a", none⟩ ["b"]).pfx = (forkChain ⟨"a__b", none⟩ []).pfx ∧
    (["b"] : List String) ≠ [] ∧
    (forkChain ⟨"a", none⟩ ["b"]).pfx ++ "__" ++ "k"
      = (forkChain ⟨"a__b", none⟩ []).pfx ++ "__" ++ "k" := by
  refine ⟨by decide, by simp, by decide⟩

/-- C2 (amended): fork prefix composition is associative; and as long as the
root prefix, every local fork prefix and the local key contain no underscore,
the fully-qualified key string determines the root, the chain of local
prefixes and the local key, so distinct such chains can never collide. -/
theorem c2_compose_assoc_inj :
    (∀ a b c : String, composeP (composeP a b) c = composeP a (composeP b c)) ∧
    (∀ (r1 r2 k1 k2 : String) (l1 l2 : List String) (o1 o2 : Option StateOptions),
      noUS r1 → noUS r2 → (∀ p ∈ l1, noUS p) → (∀ p ∈ l2, noUS p) →
      noUS k1 → noUS k2 →
      (forkChain ⟨r1, o1⟩ l1).pfx ++ "__" ++ k1
        = (forkChain ⟨r2, o2⟩ l2).pfx ++ "__" ++ k2 →
      r1 = r2 ∧ l1 = l2 ∧ k1 = k2) := by
  constructor
  · intro a b c
    simp [composeP, String.append_assoc]
  · intro r1 r2 k1 k2 l1 l2 o1 o2 h1 h2 hl1 hl2 hk1 hk2 heq
    have hd := congrArg String.data heq
    rw [String.data_append, String.data_append, String.data_append,
      String.data_append] at hd
    rw [forkChain_pfx_data, forkChain_pfx_data] at hd
    have e1 : ∀ (a : List Char) (ts : List (List Char)) (kd : List Char),
        joinT a ts ++ "__".data ++ kd = joinT a (ts ++ [kd]) := by
      intro a ts kd
      rw [joinT_snoc, List.append_assoc]
      rfl
    rw [e1, e1] at hd
    have hc1 : ∀ p ∈ l1.map String.data ++ [k1.data], '_' ∉ p := by
      intro p hp
      rcases List.mem_append.mp hp with hp | hp
      · obtain ⟨q, hq, hqe⟩ := List.mem_map.mp hp
        rw [← hqe]
        exact hl1 q hq
      · rw [List.mem_singleton] at hp
        rw [hp]
        exact hk1
    have hc2 : ∀ p ∈ l2.map String.data ++ [k2.data], '_' ∉ p := by
      intro p hp
      rcases List.mem_append.mp hp with hp | hp
      · obtain ⟨q, hq, hqe⟩ := List.mem_map.mp hp
        rw [← hqe]
        exact hl2 q hq
      · rw [List.mem_singleton] at hp
        rw [hp]
        exact hk2
    obtain ⟨hr, hts⟩ := joinT_inj _ _ _ _ h1 h2 hc1 hc2 hd
    refine ⟨strOfData _ _ hr, ?_, ?_⟩
    · have hlen : (l1.map String.data).length = (l2.map String.data).length := by
        have hl := congrArg List.length hts
        simp at hl
        simpa using hl
      have hsplit := List.append_inj hts hlen
      have hinj : Function.Injective String.data := fun a b h => strOfData a b h
      exact List.map_injective_iff.mpr hinj hsplit.1
    · have hlen : (l1.map String.data).length = (l2.map String.data).length := by
        have hl := congrArg List.length hts
        simp at hl
        simpa using hl
      have hsplit := List.append_inj hts hlen
      have hk := hsplit.2
      rw [List.cons.injEq] at hk
      exact strOfData _ _ hk.1

/-- Witness for `c2_compose_assoc_inj` at concrete underscore-free inputs. -/
theorem c2_compose_assoc_inj_witness :
    composeP (composeP "a" "b") "c" = composeP "a" (composeP "b" "c") ∧
    (("a" : String) = "a" ∧ (["b"] : List String) = ["b"] ∧ ("k" : String) = "k") := by
  refine ⟨c2_compose_assoc_inj.1 "a" "b" "c", ?_⟩
  refine c2_compose_assoc_inj.2 "a" "a" "k" "k" ["b"] ["b"] none none
    (by decide) (by decide) ?_ ?_ (by decide) (by decide) rfl
  all_goals
    intro p hp
    rw [List.mem_singleton] at hp
    rw [hp]
    decide

/-- C3 counterexample: a parent fork with prefix a and default persist `true`
creates a child through the instance fork with local prefix b and no options:
the composed prefix a__b is not in the registry afterwards, the child's
options are absent rather than inherited, and a set through the child without
an explicit persist flag does not trigger the Persistence Bridge. -/
theorem c3_fork_cex :
    (State.forkR ["a"] ⟨"a", some ⟨some true⟩⟩ "b" none).1 = ["a"] ∧
    "a__b" ∉ listForks ((State.forkR ["a"] ⟨"a", some ⟨some true⟩⟩ "b" none).1) ∧
    ((State.forkR ["a"] ⟨"a", some ⟨some true⟩⟩ "b" none).2).opts = none ∧
    (State.setState ⟨[], none⟩ ((State.forkR ["a"] ⟨"a", some ⟨some true⟩⟩ "b" none).2)
        "k" (some (Value.vStr "v")) none).2 = false := by
  refine ⟨rfl, by decide, rfl, rfl⟩

/-- C3 (amended): the instance fork returns a fork whose prefix is the parent
prefix, the separator and the local prefix, but it registers nothing (the
registry passes through unchanged, so the composed prefix does not appear in
`listForks` unless it was there already) and inherits nothing: its options
are exactly the ones passed, and a child created without options does not
persist by default even when the parent has persist `true`. -/
theorem c3_fork_no_register_no_inherit :
    (∀ (reg : Registry) (s : State) (p : String) (o : Option StateOptions),
      State.forkR reg s p o = (reg, ⟨s.pfx ++ "__" ++ p, o⟩)) ∧
    (∀ (s : State) (p : String) (o : Option StateOptions), (s.fork p o).opts = o) ∧
    (∀ (sys : Sys) (s : State) (p k : String) (v : JSVal),
      (State.setState sys (s.fork p none) k v none).2 = false) := by
  refine ⟨fun reg s p o => rfl, fun s p o => rfl, fun sys s p k v => rfl⟩

/-- C4 counterexample: the Sanitizer does not never-throw — on a plain
object carrying an own `constructor: null` property, and on a null-prototype
object (`Object.create(null)`), evaluating `value.constructor.name` throws a
TypeError instead of degrading the value to absent. -/
theorem c4_never_throws_cex :
    removeInstances (some (Value.vObj [("constructor", some Value.vNull)])) ⟨false, 0⟩
      = (Except.error JSError.typeError, ⟨false, 0⟩) ∧
    removeInstances (some (Value.vObjNP [])) ⟨false, 0⟩
      = (Except.error JSError.typeError, ⟨false, 0⟩) :=
  ⟨rfl, rfl⟩

/-- C4 (amended): on the modelled finite values the Sanitizer is total, and
unsupported values degrade to absent rather than raising — a function value
sanitizes to `undefined`, and an object whose computed `constructor.name` is
not a built-in type name sanitizes to `undefined` — except that the access
`value.constructor.name` itself throws a TypeError whenever the value's
`constructor` is `undefined` or `null` (an own `constructor: null` property,
or a null-prototype object). -/
theorem c4_degrade_or_throw :
    (∀ (fname : String) (s : WarnState),
      removeInstances (some (Value.vFunc fname)) s = (Except.ok none, s)) ∧
    (∀ (n : String) (fields : List (String × JSVal)) (s : WarnState),
      builtInTypes.contains n = false → fields.lookup "constructor" = none →
      (removeInstances (some (Value.vInst n fields)) s).1 = Except.ok none) ∧
    (∀ (fields : List (String × JSVal)) (s : WarnState),
      fields.lookup "constructor" = some (some Value.vNull) →
      removeInstances (some (Value.vObj fields)) s = (Except.error JSError.typeError, s)) ∧
    (∀ (fields : List (String × JSVal)) (s : WarnState),
      fields.lookup "constructor" = none →
      removeInstances (some (Value.vObjNP fields)) s = (Except.error JSError.typeError, s)) := by
  refine ⟨fun fname s => rfl, ?_, ?_, ?_⟩
  · intro n fields s hn hc
    have hcn : ctorName (.vInst n fields) = .ok (some (.vStr n)) := by
      simp [ctorName, ctorOf, hc, nameOf]
    have hb : ¬ (isBuiltIn (some (.vStr n)) = true) := by
      simp only [isBuiltIn]
      rw [hn]
      simp
    simp only [removeInstances, removeValue, hcn]
    rw [if_neg hb]
    by_cases hw : s.warned = true
    · rw [if_pos hw]
    · rw [if_neg hw]
  · intro fields s hc
    have hcn : ctorName (.vObj fields) = .error .typeError := by
      simp [ctorName, ctorOf, hc]
    simp [removeInstances, removeValue, hcn]
  · intro fields s hc
    have hcn : ctorName (.vObjNP fields) = .error .typeError := by
      simp [ctorName, ctorOf, hc]
    simp [removeInstances, removeValue, hcn]

/-- Witness for `c4_degrade_or_throw` at a function, a non-built-in class
instance, an object with an own null constructor, and a null-prototype
object. -/
theorem c4_degrade_or_throw_witness :
    builtInTypes.contains "Poll" = false ∧
    ([] : List (String × JSVal)).lookup "constructor" = none ∧
    ([("constructor", some Value.vNull)] : List (String × JSVal)).lookup "constructor"
      = some (some Value.vNull) ∧
    removeInstances (some (Value.vFunc "f")) ⟨false, 0⟩ = (Except.ok none, ⟨false, 0⟩) ∧
    (removeInstances (some (Value.vInst "Poll" [])) ⟨false, 0⟩).1 = Except.ok none ∧
    removeInstances (some (Value.vObj [("constructor", some Value.vNull)])) ⟨true, 1⟩
      = (Except.error JSError.typeError, ⟨true, 1⟩) ∧
    removeInstances (some (Value.vObjNP [])) ⟨true, 1⟩
      = (Except.error JSError.typeError, ⟨true, 1⟩) :=
  ⟨by decide, rfl, rfl, c4_degrade_or_throw.1 "f" ⟨false, 0⟩,
    c4_degrade_or_throw.2.1 "Poll" [] ⟨false, 0⟩ (by decide) rfl,
    c4_degrade_or_throw.2.2.1 [("constructor", some Value.vNull)] ⟨true, 1⟩ rfl,
    c4_degrade_or_throw.2.2.2 [] ⟨true, 1⟩ rfl⟩

/-- C5 counterexample: when a `state-load` message arrives before any
`state-save` message, the pending save resolves with the `state-load`
payload, not with the payload of the worker's next `state-save` message. -/
theorem c5_stateload_resolves_cex :
    getStateSave (some
        [ChildEvent.message ⟨"state-load", some [("a", some (Value.vStr "x"))]⟩,
         ChildEvent.message ⟨"state-save", some []⟩])
      = SaveOutcome.resolved (some [("a", some (Value.vStr "x"))]) ∧
    (some [("a", some (Value.vStr "x"))] : Option Table) ≠ some [] := by
  refine ⟨rfl, by simp⟩

/-- C5 (amended): a null worker handle resolves immediately with the empty
mapping; a channel fault arriving first rejects with that fault and later
messages cannot change the outcome (the message listener was removed first);
the first message passing `isStateMessage` — of type `state-save` or
`state-load` — resolves with its payload; other messages are skipped. -/
theorem c5_save_protocol :
    getStateSave none = SaveOutcome.resolved (some []) ∧
    (∀ (e : String) (rest : List ChildEvent),
      runSave (ChildEvent.fault e :: rest) = SaveOutcome.rejected e) ∧
    (∀ (m : RoboMessage) (rest : List ChildEvent), isStateMessage m = true →
      runSave (ChildEvent.message m :: rest) = SaveOutcome.resolved m.state) ∧
    (∀ (m : RoboMessage) (rest : List ChildEvent), isStateMessage m = false →
      runSave (ChildEvent.message m :: rest) = runSave rest) := by
  refine ⟨rfl, fun e rest => rfl, ?_, ?_⟩
  · intro m rest hm
    simp [runSave, hm]
  · intro m rest hm
    simp [runSave, hm]

/-- Witness for `c5_save_protocol` at a concrete `state-save` response. -/
theorem c5_save_protocol_witness :
    isStateMessage ⟨"state-save", some []⟩ = true ∧
    runSave [ChildEvent.message ⟨"state-save", some []⟩]
      = SaveOutcome.resolved (some []) :=
  ⟨rfl, c5_save_protocol.2.2.1 ⟨"state-save", some []⟩ [] rfl⟩

/-- C6: the effective persist flag of a fork-level set is the explicit
call-site value when one is given (so an explicit `false` overrides a fork
default of `true`), else the fork's own default, else `false`; the
Persistence Bridge branch runs exactly when this flag is `true`. -/
theorem c6_effective_persist (sys : Sys) (s : State) (k : String) (v : JSVal)
    (callO : Option SetStateOptions) :
    (State.setState sys s k v callO).2 = effPersist callO s.opts := by
  simp only [State.setState, setStateTop, setState, effPersist]
  cases hc : callO.bind fun o => o.persist with
  | some b =>
      cases b
      · simp [Option.orElse, hc]
      · simp [Option.orElse, hc]
  | none =>
      cases hd : s.opts.bind fun o => o.persist with
      | some b =>
          cases b
          · simp [Option.orElse, hc, hd]
          · simp [Option.orElse, hc, hd]
      | none => simp [Option.orElse, hc, hd]

/-- C7: a single top-level call to the Sanitizer — `removeInstances` started
with the default unset warned flag and no warnings logged — logs at most one
warning, however many offending values the input tree contains and however
deeply they are nested. -/
theorem c7_single_warning (v : JSVal) :
    ((removeInstances v ⟨false, 0⟩).2).warnCount ≤ 1 := by
  rcases sanitize_warnStep v ⟨false, 0⟩ with h | ⟨_, h⟩
  · rw [h]
    decide
  · rw [h]

/-- C8: a persistent set adds or overwrites exactly its own key in the
persisted snapshot and keeps every previously persisted key; `clearState`
empties the in-memory table — every subsequent get returns `undefined` —
while the durable snapshot is untouched. -/
theorem c8_snapshot_grow_clear :
    (∀ (sys : Sys) (k : String) (v : JSVal) (o : Option SetStateOptions),
      (o.getD ⟨none⟩).persist = some true →
      (((setState sys k v o).1).flash.getD []).lookup k = some v ∧
      ∀ k2, k2 ≠ k → (((setState sys k v o).1).flash.getD []).lookup k2
        = (sys.flash.getD []).lookup k2) ∧
    (∀ sys : Sys, (clearState sys).table = [] ∧ (clearState sys).flash = sys.flash ∧
      ∀ k, getState (clearState sys) k = none) := by
  constructor
  · intro sys k v o hp
    have hflash : ((setState sys k v o).1).flash
        = some (tSet (sys.flash.getD []) k v) := by
      simp [setState, hp]
    rw [hflash]
    constructor
    · rw [Option.getD_some]
      exact lookup_tSet_self _ _ _
    · intro k2 hk2
      rw [Option.getD_some]
      exact lookup_tSet_ne _ _ _ _ hk2
  · intro sys
    refine ⟨rfl, rfl, fun k => rfl⟩

/-- Witness for `c8_snapshot_grow_clear` at a concrete persistent write. -/
theorem c8_snapshot_grow_clear_witness :
    ((some ⟨some true⟩ : Option SetStateOptions).getD ⟨none⟩).persist = some true ∧
    ("j" : String) ≠ "k" ∧
    (((setState ⟨[], none⟩ "k" (some (Value.vStr "v")) (some ⟨some true⟩)).1).flash.getD
        []).lookup "k" = some (some (Value.vStr "v")) ∧
    (((setState ⟨[], none⟩ "k" (some (Value.vStr "v")) (some ⟨some true⟩)).1).flash.getD
        []).lookup "j" = (((⟨[], none⟩ : Sys)).flash.getD []).lookup "j" := by
  have h := c8_snapshot_grow_clear.1 ⟨[], none⟩ "k" (some (Value.vStr "v"))
    (some ⟨some true⟩) rfl
  exact ⟨rfl, by decide, h.1, h.2 "j" (by decide)⟩

/-- C9: a write through a fork with root prefix P1 leaves reads of the same
local key through a fork with a different root prefix P2 unchanged. -/
theorem c9_fork_frame (sys : Sys) (p1 p2 : String) (o1 o2 : Option StateOptions)
    (k : String) (v : JSVal) (callO : Option SetStateOptions) (h : p1 ≠ p2) :
    State.getState ((State.setState sys ⟨p1, o1⟩ k v callO).1) ⟨p2, o2⟩ k
      = State.getState sys ⟨p2, o2⟩ k := by
  have hkey : p2 ++ "__" ++ k ≠ p1 ++ "__" ++ k := by
    have h1 : p2 ++ "__" ≠ p1 ++ "__" := append_cancel_ne p2 p1 "__" (Ne.symm h)
    exact append_cancel_ne (p2 ++ "__") (p1 ++ "__") k h1
  simp only [State.getState, getStateTop, getState, State.setState, setStateTop]
  rw [setState_table]
  exact tGet_tSet_ne _ _ _ _ hkey

/-- Witness for `c9_fork_frame` at concrete distinct root prefixes. -/
theorem c9_fork_frame_witness :
    State.getState ((State.setState ⟨[], none⟩ ⟨"a", none⟩ "k"
        (some (Value.vStr "v")) none).1) ⟨"b", none⟩ "k"
      = State.getState ⟨[], none⟩ ⟨"b", none⟩ "k" :=
  c9_fork_frame ⟨[], none⟩ "a" "b" none none "k" (some (Value.vStr "v")) none
    (by decide)

/-- C10: for a key absent from the in-memory table the public getter returns
`undefined` — not `null`, despite the getter's documented contract — and
after `setState(key, undefined)` with no persist the getter also returns
`undefined`, so a stored `undefined` is indistinguishable from an absent key
through the getter. -/
theorem c10_get_undefined (sys : Sys) (k : String) :
    (sys.table.lookup k = none →
      getState sys k = none ∧ getState sys k ≠ some Value.vNull) ∧
    getState ((setState sys k none none).1) k = none := by
  constructor
  · intro h
    constructor
    · simp [getState, tGet, h]
    · simp [getState, tGet, h]
  · have ht := setState_table sys k none none
    simp only [getState, ht]
    rw [tGet_tSet_self]

/-- Witness for `c10_get_undefined` at a concrete never-written key. -/
theorem c10_get_undefined_witness :
    (([] : Table).lookup "x" = none) ∧
    getState ⟨[], none⟩ "x" = none ∧
    getState ⟨[], none⟩ "x" ≠ some Value.vNull ∧
    getState ((setState ⟨[], none⟩ "x" none none).1) "x" = none := by
  have h := c10_get_undefined ⟨[], none⟩ "x"
  have h1 := h.1 rfl
  exact ⟨rfl, h1.1, h1.2, h.2⟩
